import Mathlib

/-!
Verification development for the html2notion translation core.

The definitions below are a shallow embedding of
`src/html2notion/translate/html2json_base.py` (class `Html2JsonBase`) and
`src/html2notion/utils/table.py` (class `NotionTableConverter`).

Modelling conventions:
- A BeautifulSoup parse tree is the inductive `HNode` (element nodes with a
  tag name, an ordered attribute list and ordered children, and text nodes).
- Python `str` values are Lean `String`; slicing and length act on the list
  of characters (`String.data`), matching Python code-point semantics.
- Python dicts that are used with dynamic keys are association lists with
  insertion-order-preserving update (`pyDictSet`): updating an existing key
  replaces its value in place, a new key is appended.
- Side-effect-only collaborators (the statistics collector, the logger and
  `print`) do not influence the returned values and are omitted.
- The external URL-validity predicate `is_valid_url` is not part of the two
  source files; it is passed as an explicit function argument `valid`.
- Code that can raise a Python exception (KeyError on a missing dict key,
  IndexError on `list[0]` of an empty list, AttributeError on `None`) is
  embedded in `Except String`, the error string naming the exception.
-/

/-- Characters stripped by Python `str.strip()` (ASCII whitespace; the
inputs handled by the claims are ASCII). -/
def isPySpace (c : Char) : Bool :=
  c == ' ' || c == '\t' || c == '\n' || c == '\r' || c == '\x0b' || c == '\x0c'

/-- Python `str.strip()` on a character list. -/
def pyStripL (l : List Char) : List Char :=
  ((l.dropWhile isPySpace).reverse.dropWhile isPySpace).reverse

/-- Python `str.strip()`. -/
def pyStrip (s : String) : String := ⟨pyStripL s.data⟩

/-- Python `str.lower()` (ASCII case folding suffices for the inputs used). -/
def pyLower (s : String) : String := ⟨s.data.map Char.toLower⟩

/-- Python substring containment `pat in s`. -/
def containsSub (pat : List Char) : List Char → Bool
  | [] => pat.isEmpty
  | x :: xs => pat.isPrefixOf (x :: xs) || containsSub pat xs

/-- Python `str.split(sep)` with a single-character separator: keeps empty
segments, `"".split(sep) == [""]`. -/
def splitChar (sep : Char) : List Char → List (List Char)
  | [] => [[]]
  | c :: cs =>
    let r := splitChar sep cs
    if c == sep then [] :: r
    else
      match r with
      | [] => [[c]]
      | h :: t => (c :: h) :: t

/-- Lookup in an association list modelling a Python dict (`d.get(k)`). -/
def pyDictGet (d : List (String × String)) (k : String) : Option String :=
  (d.find? (fun p => p.1 == k)).map (·.2)

/-- Python `d.get(k, default)`. -/
def pyDictGetD (d : List (String × String)) (k : String) (dflt : String) : String :=
  (pyDictGet d k).getD dflt

/-- Python dict assignment `d[k] = v`: replaces the value of an existing key
in place, appends a new key at the end (insertion order preserved). -/
def pyDictSet (d : List (String × String)) (k v : String) : List (String × String) :=
  if d.any (fun p => p.1 == k) then
    d.map (fun p => if p.1 == k then (p.1, v) else p)
  else d ++ [(k, v)]

/-- Python `text[i:i+(s+1)] for i in range(0, len(text), s+1)`: consecutive chunks
of size `s + 1` (the successor argument makes the step positive). -/
def chunkSucc (s : Nat) : List α → List (List α)
  | [] => []
  | x :: xs => (x :: xs.take s) :: chunkSucc s (xs.drop s)
  termination_by l => l.length
  decreasing_by simp [List.length_drop]; omega

/-- Maximal runs of decimal digits, as `re.findall(r"\d+", s)` yields them.
The first argument accumulates the current run in reverse. -/
def digitRunsAux : List Char → List Char → List (List Char)
  | cur, [] => if cur.isEmpty then [] else [cur.reverse]
  | cur, c :: cs =>
    if c.isDigit then digitRunsAux (c :: cur) cs
    else if cur.isEmpty then digitRunsAux [] cs
    else cur.reverse :: digitRunsAux [] cs

/-- Python `re.findall(r"\d+", s)`. -/
def digitRuns (s : String) : List (List Char) := digitRunsAux [] s.data

/-- Python `int(s)` for a string of decimal digits. -/
def digitsToNat (l : List Char) : Nat :=
  l.foldl (fun n c => n * 10 + (c.toNat - 48)) 0

/-- Python `str.isdigit()` (ASCII digits). -/
def pyIsDigit (s : String) : Bool := !s.data.isEmpty && s.data.all Char.isDigit

/-- The HTML parse tree consumed by the converter: a standard DOM tree of
element and text nodes (spec section 6, "HTML parse tree"). -/
inductive HNode where
  | text (s : String)
  | elem (name : String) (attrs : List (String × String)) (children : List HNode)

/-- Tag name of an element node (`""` for a text node, which BeautifulSoup
reports as `None`; only reached on element nodes in the source). -/
def HNode.nameOf : HNode → String
  | .text _ => ""
  | .elem n _ _ => n

/-- Attribute list of a node (`tag.attrs`). -/
def HNode.attrsOf : HNode → List (String × String)
  | .text _ => []
  | .elem _ a _ => a

/-- Child list of a node (`tag.children`). -/
def HNode.childrenOf : HNode → List HNode
  | .text _ => []
  | .elem _ _ cs => cs

/-- Python `tag.get(k)`. -/
def getAttr (n : HNode) (k : String) : Option String :=
  (n.attrsOf.find? (fun p => p.1 == k)).map (·.2)

/-- Python `tag.get(k, default)`. -/
def getAttrD (n : HNode) (k : String) (dflt : String) : String :=
  (getAttr n k).getD dflt

/-- Truthiness of `tag.get(k)`: the attribute is present and non-empty. -/
def truthyAttr (n : HNode) (k : String) : Bool :=
  (getAttr n k).getD "" != ""

/-- Python `tag.has_attr(k)`. -/
def hasAttr (n : HNode) (k : String) : Bool := (getAttr n k).isSome

mutual
/-- All descendant element nodes of a node in document (pre-)order,
excluding the node itself: the search space of `tag.find_all(...)`. -/
def descElems : HNode → List HNode
  | .text _ => []
  | .elem _ _ cs => descElemsList cs

/-- Pre-order element descendants of a forest. -/
def descElemsList : List HNode → List HNode
  | [] => []
  | c :: cs => descElemsOne c ++ descElemsList cs

/-- A text node contributes nothing; an element contributes itself
followed by its own element descendants. -/
def descElemsOne : HNode → List HNode
  | .text _ => []
  | .elem n a cc => .elem n a cc :: descElemsList cc
end

/-- Python `tag.find_all(name)`: descendant elements with the given tag name. -/
def findAllDesc (name : String) (n : HNode) : List HNode :=
  (descElems n).filter (fun c => c.nameOf == name)

/-- Python `tag.find(name)`: first matching descendant element, if any. -/
def findFirst (name : String) (n : HNode) : Option HNode :=
  (findAllDesc name n).head?

/-- Python `td.find("input", attrsFilter)` for a single required attribute value. -/
def findFirstWithAttr (name k v : String) (n : HNode) : Option HNode :=
  ((findAllDesc name n).filter (fun c => getAttr c k == some v)).head?

/-- Python `[t for t in soup.find_all(names, recursive=True) if t.parent == soup]`:
since `find_all` enumerates descendants in pre-order, the filter keeps
exactly the direct element children with a matching name, in child order. -/
def directElems (n : HNode) (names : List String) : List HNode :=
  n.childrenOf.filter (fun c =>
    match c with
    | .text _ => false
    | .elem nm _ _ => names.contains nm)

mutual
/-- The ordered text contents of all descendant text nodes (`tag.strings`). -/
def allStrings : HNode → List String
  | .text s => [s]
  | .elem _ _ cs => allStringsList cs

/-- Text contents of a forest. -/
def allStringsList : List HNode → List String
  | [] => []
  | c :: cs => allStrings c ++ allStringsList cs
end

/-- Python `tag.get_text(strip=True)`: each contained string stripped, concatenated
in document order. -/
def getTextStrip (n : HNode) : String :=
  String.join ((allStrings n).map pyStrip)

/-- The Notion text annotation set built by `parse_one_style` /
`generate_text`.  In the source this is a dict whose keys are only ever
inserted with value `True` (or a color string), so presence of a key is
equivalent to a `true` flag here; the empty annotation dict corresponds to
the default value. -/
structure Annots where
  bold : Bool := false
  italic : Bool := false
  strikethrough : Bool := false
  underline : Bool := false
  code : Bool := false
  color : Option String := none
deriving DecidableEq, Repr

/-- The default (empty) annotation dict. -/
def Annots.isEmptyA (a : Annots) : Bool :=
  !a.bold && !a.italic && !a.strikethrough && !a.underline && !a.code && a.color == none

/-- The `text_params` dict accumulated per leaf unit by `parse_one_style`.
Keys that are only conditionally inserted are `Option`/defaulted fields. -/
structure TextParams where
  plain_text : String
  bold : Bool := false
  italic : Bool := false
  strikethrough : Bool := false
  underline : Bool := false
  code : Bool := false
  color : Option String := none
  url : Option String := none
  database_id : Option String := none
  src : Option String := none
  upload_id : Option String := none
  mime : Option String := none
deriving DecidableEq, Repr

/-- The rich-text level objects produced by `generate_text`,
`generate_link` and `generate_image`.  Each constructor records exactly the
distinguishing fields of the corresponding Python dict:
- `textObj content annots` is `{"plain_text": c, "text": {"content": c},
  "type": "text"}` plus an `"annotations"` key when `annots` is `some`
  (the source always keeps `plain_text` and `text.content` equal);
- `linkObj href content` is the link dict (`"type": "text"` with an
  `"href"` key and `"text": {"link": {"url": href}, "content": content}`);
- `linkToPage id` is the `link_to_page` block;
- `imageBlock kind srcType url uploadId` is the image/file block
  (`"object": "block"`), `kind` is its `"type"` key (`"image"` or
  `"file"`), `srcType` the payload type (`"external"` or `"file_upload"`). -/
inductive RichObj where
  | textObj (content : String) (annots : Option Annots)
  | linkObj (href : String) (content : String)
  | linkToPage (databaseId : String)
  | imageBlock (kind : String) (srcType : String) (url : String)
      (uploadId : Option String)
deriving DecidableEq, Repr

/-- Python `obj.get("type")` of a rich-text object. -/
def rtType : RichObj → String
  | .textObj _ _ => "text"
  | .linkObj _ _ => "text"
  | .linkToPage _ => "link_to_page"
  | .imageBlock k _ _ _ => k

/-- Python `obj["text"]["content"]`; only read on objects of type `"text"`. -/
def rtContent : RichObj → String
  | .textObj c _ => c
  | .linkObj _ c => c
  | _ => ""

/-- Python `obj.get("annotations")`. -/
def rtAnnots : RichObj → Option Annots
  | .textObj _ a => a
  | _ => none

/-- Python `obj.get("href")`. -/
def rtHref : RichObj → Option String
  | .linkObj h _ => some h
  | _ => none

/-- Python `obj.get("object")`. -/
def rtObjectKey : RichObj → Option String
  | .linkToPage _ => some "block"
  | .imageBlock _ _ _ _ => some "block"
  | _ => none

/-- Python `Html2JsonBase.get_tag_style`: parses the inline `style` attribute.
The dict comprehension splits the attribute on `;`; a rule contributes an
entry when it is non-empty and splitting it on `:` yields more than one
segment; the key is segment 0 stripped, the value segment 1 stripped and
lower-cased.  (The guard `if str and isinstance(style, str)` is always
true here: `str` is the type object, and attributes are strings.) -/
def get_tag_style (tag : HNode) : List (String × String) :=
  match tag with
  | .text _ => []
  | .elem _ _ _ =>
    let style := getAttrD tag "style" ""
    (splitChar ';' style.data).foldl
      (fun d rule =>
        let segs := splitChar ':' rule
        if !rule.isEmpty && segs.length > 1 then
          pyDictSet d (pyStrip ⟨segs.headI⟩) (pyLower (pyStrip ⟨segs.tail.headI⟩))
        else d)
      []

/-- Python `Html2JsonBase.is_bold`. -/
def is_bold (tag_name : String) (styles : List (String × String)) : Bool :=
  if tag_name == "b" || tag_name == "strong" then true
  else
    match pyDictGet styles "font-weight" with
    | none => false
    | some fw =>
      if fw == "bold" then true
      else if pyIsDigit fw && 700 ≤ digitsToNat fw.data then true
      else false

/-- Python `Html2JsonBase.is_strikethrough`. -/
def is_strikethrough (tag_name : String) (styles : List (String × String)) : Bool :=
  if tag_name == "s" || tag_name == "strike" || tag_name == "del" then true
  else containsSub "line-through".data (pyDictGetD styles "text-decoration" "").data

/-- Python `Html2JsonBase.is_italic`. -/
def is_italic (tag_name : String) (styles : List (String × String)) : Bool :=
  if tag_name == "i" || tag_name == "em" then true
  else containsSub "italic".data (pyDictGetD styles "font-style" "").data

/-- Python `Html2JsonBase.is_underline`. -/
def is_underline (tag_name : String) (styles : List (String × String)) : Bool :=
  if tag_name == "u" then true
  else containsSub "underline".data (pyDictGetD styles "text-decoration" "").data

/-- Python `Html2JsonBase.is_code` (the fall-through `None` return is `false`). -/
def is_code (tag_name : String) (styles : List (String × String)) : Bool :=
  if tag_name == "code" then true
  else if pyDictGetD styles "-en-code" "false" == "true" then true
  else
    let font_family := pyDictGetD styles "font-family" ""
    if font_family == "" then false
    else pyLower font_family == "courier" || pyLower font_family == "monospace"

/-- One palette entry of `Html2JsonBase._notion_color`. -/
structure NColor where
  name : String
  r : Nat
  g : Nat
  b : Nat
deriving DecidableEq, Repr

/-- Python `Html2JsonBase._notion_color`: the fixed 10-entry palette. -/
def notion_color : List NColor :=
  [⟨"default", 0, 0, 0⟩, ⟨"gray", 128, 128, 128⟩, ⟨"brown", 165, 42, 42⟩,
   ⟨"orange", 255, 165, 0⟩, ⟨"yellow", 255, 255, 0⟩, ⟨"green", 0, 128, 0⟩,
   ⟨"blue", 0, 0, 255⟩, ⟨"purple", 128, 0, 128⟩, ⟨"pink", 255, 192, 203⟩,
   ⟨"red", 255, 0, 0⟩]

/-- Squared Euclidean distance to a palette entry.  The source compares
`((r-cr)**2 + (g-cg)**2 + (b-cb)**2) ** 0.5` values; the square root is
strictly monotone on these integer sums (adjacent sums below `3 * 255 ^ 2`
have square roots separated by far more than double-precision rounding
error), so comparing the squared distances selects the same entries. -/
def colorDistSq (r g b : Nat) (c : NColor) : Int :=
  ((r : Int) - c.r) * ((r : Int) - c.r) + ((g : Int) - c.g) * ((g : Int) - c.g)
    + ((b : Int) - c.b) * ((b : Int) - c.b)

/-- The scan loop of `Html2JsonBase._closest_color`: `best` is
`closest_color, closest_distance` (`none` is the initial
`None, float("inf")` state, below which every distance is strictly
smaller); a candidate replaces the best exactly when strictly closer. -/
def closestLoop (r g b : Nat) : Option (String × Int) → List NColor → Option (String × Int)
  | best, [] => best
  | best, c :: cs =>
    let d := colorDistSq r g b c
    match best with
    | none => closestLoop r g b (some (c.name, d)) cs
    | some (bn, bd) =>
      if d < bd then closestLoop r g b (some (c.name, d)) cs
      else closestLoop r g b (some (bn, bd)) cs

/-- Python `Html2JsonBase._closest_color`. -/
def closest_color (r g b : Nat) : Option String :=
  (closestLoop r g b none notion_color).map Prod.fst

/-- Hex digit value for `int(h, 16)`. -/
def hexVal (c : Char) : Nat :=
  if c.isDigit then c.toNat - 48
  else if 'a' ≤ c && c ≤ 'f' then c.toNat - 87
  else if 'A' ≤ c && c ≤ 'F' then c.toNat - 55
  else 0

/-- Hex digit predicate of the regex class `[0-9a-fA-F]`. -/
def isHexDigit (c : Char) : Bool :=
  c.isDigit || ('a' ≤ c && c ≤ 'f') || ('A' ≤ c && c ≤ 'F')

/-- Python `Html2JsonBase._hex_to_rgb` (on the 6-digit form produced by the
caller): strips leading `#` and reads three two-digit hex components. -/
def hex_to_rgb (l : List Char) : Nat × Nat × Nat :=
  match l.dropWhile (fun c => c == '#') with
  | [a, b, c, d, e, f] =>
    (16 * hexVal a + hexVal b, 16 * hexVal c + hexVal d, 16 * hexVal e + hexVal f)
  | _ => (0, 0, 0)

/-- Python `Html2JsonBase.get_color`. -/
def get_color (styles : List (String × String)) (attrs : List (String × String)) : String :=
  let color0 := pyDictGetD styles "color" ""
  let color :=
    if color0 == "" then
      match pyDictGet attrs "color" with
      | some c => c
      | none => ""
    else color0
  if color == "" then "default"
  else if "rgb".data.isPrefixOf color.data then
    let color_values := (digitRuns color).map digitsToNat
    match color_values with
    | r :: g :: b :: _ => (closest_color r g b).getD "default"
    | _ => "default"
  else if color.data.headI == '#' && (color.data.tail.all isHexDigit) &&
      (color.data.tail.length == 3 || color.data.tail.length == 6) then
    let color6 :=
      if color.data.length == 4 then '#' :: (color.data.tail.flatMap (fun c => [c, c]))
      else color.data
    let (r, g, b) := hex_to_rgb color6
    (closest_color r g b).getD "default"
  else "default"

/-- Python `Html2JsonBase.parse_one_style`: folds one ancestor element into the
accumulated `text_params`.  Annotation keys are only ever switched on;
`color` is stored only when the resolved color is not `"default"`. -/
def parse_one_style (tag : HNode) (p : TextParams) : TextParams :=
  let tag_name := pyLower tag.nameOf
  let styles := get_tag_style tag
  let p := if is_bold tag_name styles then { p with bold := true } else p
  let p := if is_italic tag_name styles then { p with italic := true } else p
  let p := if is_strikethrough tag_name styles then { p with strikethrough := true } else p
  let p := if is_underline tag_name styles then { p with underline := true } else p
  let p := if is_code tag_name styles then { p with code := true } else p
  let color := get_color styles tag.attrsOf
  let p := if color != "default" then { p with color := some color } else p
  if tag_name == "a" then
    let href := getAttrD tag "href" ""
    let p := { p with url := some href }
    let dbid := getAttrD tag "data-database-id" ""
    if dbid != "" then { p with database_id := some dbid } else p
  else if tag_name == "img" then
    let src := getAttrD tag "src" ""
    let upload := getAttr tag "data-notion-file-upload-id"
    let mime :=
      match getAttr tag "data-coda-mime-type" with
      | some m => if m != "" then some m else getAttr tag "data-notion-file-mime-type"
      | none => getAttr tag "data-notion-file-mime-type"
    { p with src := some src, upload_id := upload, mime := mime }
  else p

/-- Python `URL_MAX_LENGTH = TEXT_MAX_LENGTH = 2000` (Notion request limits). -/
def TEXT_MAX_LENGTH : Nat := 2000

/-- Python `RICHTEXT_ARRAY_LENGTH = 100`. -/
def RICHTEXT_ARRAY_LENGTH : Nat := 100

/-- The annotation dict collected by `generate_text` from its kwargs: the
keys of `_text_annotations` whose value has the declared type.  Boolean
flags are only present when `true` and `color` only as a string, so the
structure with default fields is the dict. -/
def annotsOf (p : TextParams) : Annots :=
  { bold := p.bold, italic := p.italic, strikethrough := p.strikethrough,
    underline := p.underline, code := p.code, color := p.color }

/-- Python `Html2JsonBase.generate_text`: `None` on empty content, otherwise the
text object, with an `annotations` key only when the dict is non-empty. -/
def generate_text (p : TextParams) : Option RichObj :=
  if p.plain_text == "" then none
  else
    let a := annotsOf p
    some (.textObj p.plain_text (if a.isEmptyA then none else some a))

/-- Python `Html2JsonBase.generate_link`: `None` without content or with an
invalid URL; a `link_to_page` block when a database id was collected;
otherwise the link object with the URL truncated to `URL_MAX_LENGTH`. -/
def generate_link (valid : String → Bool) (p : TextParams) : Option RichObj :=
  let link_url := (p.url).getD ""
  if p.plain_text == "" || !valid link_url then none
  else
    let link_url : String := ⟨link_url.data.take TEXT_MAX_LENGTH⟩
    match p.database_id with
    | some dbid => some (.linkToPage dbid)
    | none => some (.linkObj link_url p.plain_text)

/-- Python `Html2JsonBase.generate_image`: `None` when there is neither a usable
source nor an upload id; otherwise an image block, switched to
`file_upload` when an upload id is present, and relabelled as a generic
file block when a MIME type is present that is not an `image/` type. -/
def generate_image (valid : String → Bool) (p : TextParams) : Option RichObj :=
  let source := (p.src).getD ""
  if (source == "" || !valid source) && p.upload_id == none then none
  else
    let srcType := if p.upload_id == none then "external" else "file_upload"
    let kind :=
      match p.mime with
      | some m => if m != "" && !m.startsWith "image/" then "file" else "image"
      | none => "image"
    some (.imageBlock kind srcType source p.upload_id)

mutual
/-- Python `Html2JsonBase.extract_text_and_parents`: walks a subtree and yields
the ordered leaf units (text content, `"<br>"` markers, image sources),
each paired with its ancestor chain. -/
def extract_text_and_parents : HNode → List HNode → List (String × List HNode)
  | .text s, parents => if pyStrip s != "" then [(s, parents)] else []
  | .elem n a cs, parents =>
    if n == "img" then [(getAttrD (.elem n a cs) "src" "", parents ++ [.elem n a cs])]
    else extractChildren (.elem n a cs) cs parents

/-- The child loop of `extract_text_and_parents`: a non-whitespace text
child yields a leaf with the chain extended by the current tag, a `br`
element yields a `"<br>"` leaf with an empty chain, and any other element
is recursed into with the extended chain. -/
def extractChildren (tag : HNode) (cs : List HNode) (parents : List HNode) :
    List (String × List HNode) :=
  match cs with
  | [] => []
  | c :: rest =>
    (match c with
     | .text s => if pyStrip s != "" then [(s, parents ++ [tag])] else []
     | .elem "br" _ _ => [("<br>", [])]
     | c => extract_text_and_parents c (parents ++ [tag]))
    ++ extractChildren tag rest parents
end

/-- The `"<br>"` handling in `generate_inline_obj`: appends `"\n"` to the
`text.content` and `plain_text` of the preceding object.  The mutation is
wrapped in `try/except Exception: pass` in the source, so an empty result
list or a last object without those keys (an image or `link_to_page`
block raises KeyError on `obj["text"]`) leaves everything unchanged. -/
def appendNewlineObj : RichObj → RichObj
  | .textObj c a => .textObj (c ++ "\n") a
  | .linkObj h c => .linkObj h (c ++ "\n")
  | o => o

/-- Apply `appendNewlineObj` to the last element (`res_obj[-1]`). -/
def appendNewlineLast : List RichObj → List RichObj
  | [] => []
  | [x] => [appendNewlineObj x]
  | x :: xs => x :: appendNewlineLast xs

/-- The loop body of `Html2JsonBase.generate_inline_obj` for one leaf unit
`(text, params)` given the objects emitted so far.  `params.plain_text`
equals `text`: the loop initialises `text_params = {"plain_text": text}`
and `parse_one_style` never touches that key.  A plain text longer than
`TEXT_MAX_LENGTH` is emitted chunk by chunk inside the loop body (the
chunk size is `1999 + 1 = 2000`). -/
def processLeaf (valid : String → Bool) (res : List RichObj) (text : String)
    (params : TextParams) : List RichObj :=
  if text == "<br>" then appendNewlineLast res
  else
    let link_url := (params.url).getD ""
    if link_url != "" && valid link_url then
      res ++ (generate_link valid params).toList
    else if (params.src).getD "" != "" then
      res ++ (generate_image valid params).toList
    else if text.data.length ≤ TEXT_MAX_LENGTH then
      res ++ (generate_text params).toList
    else
      res ++ (chunkSucc 1999 text.data).filterMap
        (fun chunk => generate_text { params with plain_text := ⟨chunk⟩ })

/-- Python `Html2JsonBase.generate_inline_obj`: extracts the leaf units of a tag
and folds `processLeaf` over them (the params of each leaf are built by running
`parse_one_style` over its ancestor chain, root first). -/
def generate_inline_obj (valid : String → Bool) (tag : HNode) : List RichObj :=
  (extract_text_and_parents tag []).foldl
    (fun res tp =>
      let params := tp.2.foldl (fun p parent => parse_one_style parent p)
        { plain_text := tp.1 }
      processLeaf valid res tp.1 params)
    []

/-- Python `Html2JsonBase.is_same_annotations_text`: two rich-text objects merge
when both are of type `"text"`, their combined content length stays within
`TEXT_MAX_LENGTH`, and their `annotations` and `href` entries agree. -/
def is_same_annotations_text (a b : RichObj) : Bool :=
  if rtType a != "text" || rtType b != "text" then false
  else if TEXT_MAX_LENGTH < (rtContent a).data.length + (rtContent b).data.length then false
  else rtAnnots a == rtAnnots b && rtHref a == rtHref b

/-- Content replacement performed when merging: the source assigns the
concatenation to both `plain_text` and `text.content` of the running
object (which has type `"text"`, so is a text or link object). -/
def setContent (o : RichObj) (c : String) : RichObj :=
  match o with
  | .textObj _ a => .textObj c a
  | .linkObj h _ => .linkObj h c
  | o => o

/-- The loop of `Html2JsonBase.merge_rich_text` with the running
`current_text`: a mergeable successor is absorbed, otherwise the current
object is flushed.  The trailing `if current_text` is always true (every
rich-text object is a non-empty dict), so the final current is appended. -/
def mergeLoop (current : RichObj) : List RichObj → List RichObj
  | [] => [current]
  | t :: ts =>
    if is_same_annotations_text current t then
      mergeLoop (setContent current (rtContent current ++ rtContent t)) ts
    else current :: mergeLoop t ts

/-- Python `Html2JsonBase.merge_rich_text`. -/
def merge_rich_text : List RichObj → List RichObj
  | [] => []
  | x :: xs => mergeLoop x xs

/-- A node of the list-item block tree built by `convert_list_items`:
either a list-item block (`{"object": "block", list_type:
{"rich_text": ..., "children"?: ...}, "type": list_type}`) or an
image/file block moved into a `children` array. -/
inductive LNode where
  | item (listType : String) (rich_text : List RichObj)
      (children : Option (List LNode))
  | media (r : RichObj)

/-- Python `item.get("object") == "block" and item.get("type") in
{"image", "file"}`. -/
def isMediaBlock (r : RichObj) : Bool :=
  rtObjectKey r == some "block" && (rtType r == "image" || rtType r == "file")

/-- Heading tag names unwrapped at the start of `convert_list_items`. -/
def isHeadingName (n : String) : Bool :=
  ["h1", "h2", "h3", "h4", "h5", "h6"].contains n

mutual
/-- Python `heading.unwrap()` applied to every heading descendant of a node: the
heading element is replaced in its parent by its own children.  The root
itself is never a candidate (`find_all` only returns descendants). -/
def unwrapHeadingsUnder : HNode → HNode
  | .text s => .text s
  | .elem n a cs => .elem n a (unwrapHeadingsList cs)

/-- Splice heading children into the surrounding forest. -/
def unwrapHeadingsList : List HNode → List HNode
  | [] => []
  | c :: cs => unwrapHeadingsOne c ++ unwrapHeadingsList cs

/-- One node of the forest: a heading element is replaced by its
(recursively processed) children, everything else is kept with its
children processed. -/
def unwrapHeadingsOne : HNode → List HNode
  | .text s => [.text s]
  | .elem n a cc =>
    if isHeadingName n then unwrapHeadingsList cc
    else [.elem n a (unwrapHeadingsList cc)]
end

/-- The `else` branch of `_convert_one_list_item` (no nested list): the
item inline content fills rich_text, media blocks are diverted. -/
def inlineItemBody (valid : String → Bool) (lt : String) (soup : HNode) : LNode :=
  let text_obj := generate_inline_obj valid soup
  let rc := text_obj.foldl
    (fun (acc : List RichObj × Option (List LNode)) it =>
      if isMediaBlock it then (acc.1, some [.media it])
      else (acc.1 ++ [it], acc.2))
    ([], none)
  .item lt rc.1 rc.2

mutual
/-- The body of `Html2JsonBase.convert_list_items` after the heading
unwrap: converts each direct `li` child in order ( `_convert_one_list_item`
always returns a truthy dict, so every item contributes one block).  The
recursive invocation in the source re-runs `convert_list_items`, whose
heading unwrap is a no-op on the already-unwrapped subtree, so the unwrap
is applied once, in `convert_list_items` below. -/
def convertListsU (valid : String → Bool) (lt : String) : HNode → List LNode
  | .text _ => []
  | .elem _ _ cs => convertItemsLoop valid lt cs

/-- The item loop of `convert_list_items`, fused with the direct-child
`li` filter (`[li for li in soup.find_all("li", recursive=True) if
li.parent == soup]` keeps exactly the direct `li` children in order). -/
def convertItemsLoop (valid : String → Bool) (lt : String) : List HNode → List LNode
  | [] => []
  | c :: cs =>
    (match c with
     | .elem "li" a cc => [convert_one_list_item valid lt (.elem "li" a cc)]
     | _ => [])
    ++ convertItemsLoop valid lt cs

/-- Python `Html2JsonBase._convert_one_list_item`.  With a nested list (a direct
`ul`/`ol` child) the children array holds the recursively converted
sub-items and the rich_text stays empty — the `else` branch that would
collect the own inline content of the item is not taken.  Without one, the
inline objects fill rich_text, except that image/file blocks are diverted
into a children array that is re-created (reset to `[item]`) for every
such block, so only the last one survives. -/
def convert_one_list_item (valid : String → Bool) (lt : String) : HNode → LNode
  | .text s => inlineItemBody valid lt (.text s)
  | .elem n a cc =>
    if !(directElems (.elem n a cc) ["ul", "ol"]).isEmpty then
      .item lt [] (some (nestedListsLoop valid cc))
    else inlineItemBody valid lt (.elem n a cc)

/-- The nested-list loop of `_convert_one_list_item`, fused with the
direct-child `ul`/`ol` filter: each direct nested list is converted with
its own item type (`ol` numbered, `ul` bulleted), overriding the parent
type. -/
def nestedListsLoop (valid : String → Bool) : List HNode → List LNode
  | [] => []
  | c :: cs =>
    (match c with
     | .elem "ol" a cc => convertListsU valid "numbered_list_item" (.elem "ol" a cc)
     | .elem "ul" a cc => convertListsU valid "bulleted_list_item" (.elem "ul" a cc)
     | _ => [])
    ++ nestedListsLoop valid cs
end

/-- Python `Html2JsonBase.convert_list_items`: unwraps the heading descendants,
then converts the direct `li` children. -/
def convert_list_items (valid : String → Bool) (soup : HNode) (list_type : String) :
    List LNode :=
  convertListsU valid list_type (unwrapHeadingsUnder soup)

/-- Python `Html2JsonBase.convert_bulleted_list_item`. -/
def convert_bulleted_list_item (valid : String → Bool) (soup : HNode) : List LNode :=
  convert_list_items valid soup "bulleted_list_item"

/-- Python `Html2JsonBase.convert_numbered_list_item`. -/
def convert_numbered_list_item (valid : String → Bool) (soup : HNode) : List LNode :=
  convert_list_items valid soup "numbered_list_item"

/-- Values stored in the `json_obj` dict of `convert_heading`: strings
(`"object"`, `"type"`), the heading/toggle payload (a dict with
`rich_text` and an optional `children` list), and the top-level empty
`children` array added by the toggle branch. -/
inductive HV where
  | str (s : String)
  | payload (rich_text : List RichObj) (children : Option (List RichObj))
  | blocks (bs : List RichObj)
deriving DecidableEq, Repr

/-- A Python dict with `HV` values, insertion ordered. -/
abbrev HDict := List (String × HV)

/-- Python `d[k]` read access. -/
def hdGet (d : HDict) (k : String) : Option HV :=
  (d.find? (fun p => p.1 == k)).map (·.2)

/-- Python `d[k] = v`: replace in place or append. -/
def hdSet (d : HDict) (k : String) (v : HV) : HDict :=
  if d.any (fun p => p.1 == k) then
    d.map (fun p => if p.1 == k then (p.1, v) else p)
  else d ++ [(k, v)]

/-- Python `d.pop(k)` for a present key: the value and the dict without it. -/
def hdPop (d : HDict) (k : String) : Option (HV × HDict) :=
  match hdGet d k with
  | none => none
  | some v => some (v, d.filter (fun p => p.1 != k))

/-- The mapping of `convert_heading`: `h1`/`h2` keep their level, `h3` to
`h6` (and anything else) degrade to `heading_3`. -/
def heading_map (name : String) : String :=
  if name == "h1" then "heading_1"
  else if name == "h2" then "heading_2"
  else "heading_3"

/-- The rich-text filter of `convert_heading`: file-upload images are
extracted out of the heading rich_text. -/
def isFileUploadImage (r : RichObj) : Bool :=
  match r with
  | .imageBlock k st _ _ => k == "image" && st == "file_upload"
  | _ => false

/-- Python `Html2JsonBase.convert_heading`.  `None` (here `.ok none`) without
content.  With content the heading payload is filled; if the element has
a truthy `data-toggle` attribute the heading key is popped and re-added
under `"toggle"` — after which the unconditional write
`json_obj[heading_level]["rich_text"] = cleaned_elements` looks up the
popped key and raises KeyError. -/
def convert_heading (valid : String → Bool) (soup : HNode) :
    Except String (Option HDict) :=
  let heading_level := heading_map soup.nameOf
  let text_obj := generate_inline_obj valid soup
  if text_obj.isEmpty then .ok none
  else
    let json_obj : HDict :=
      [("object", .str "block"), ("type", .str heading_level),
       (heading_level, .payload text_obj none)]
    let json_obj :=
      if truthyAttr soup "data-toggle" then
        match hdPop json_obj heading_level with
        | some (v, rest) =>
          hdSet (hdSet rest "type" (.str "toggle")) "toggle" v ++ [("children", .blocks [])]
        | none => json_obj
      else json_obj
    let file_blocks := text_obj.filter isFileUploadImage
    let cleaned_elements := text_obj.filter (fun i => !isFileUploadImage i)
    match hdGet json_obj heading_level with
    | none => .error "KeyError"
    | some (.payload _ ch) =>
      let json_obj := hdSet json_obj heading_level (.payload cleaned_elements ch)
      let json_obj :=
        if !file_blocks.isEmpty then
          hdSet json_obj heading_level (.payload cleaned_elements (some file_blocks))
        else json_obj
      .ok (some json_obj)
    | some _ => .error "TypeError"

/-- A block as seen by `ensure_array_len`: a paragraph block
(`{"object": "block", "type": "paragraph", "paragraph": {"rich_text":
...}}`) or any other block (no `"paragraph"` key), which passes through. -/
inductive PBlock where
  | paragraph (rich_text : List RichObj)
  | otherBlock (tag : String)
deriving DecidableEq, Repr

/-- The loop body of `Html2JsonBase.ensure_array_len`: a block that is
not a paragraph (no `"paragraph"` key) or whose rich_text fits within
`RICHTEXT_ARRAY_LENGTH` is appended unchanged; an oversized paragraph is
appended as its consecutive slices of at most `RICHTEXT_ARRAY_LENGTH`
(`99 + 1 = 100`) elements, each a fresh paragraph block. -/
def ensureBody (final_objs : List PBlock) (obj : PBlock) : List PBlock :=
  match obj with
  | .otherBlock t => final_objs ++ [.otherBlock t]
  | .paragraph rich_text =>
    if rich_text.length ≤ RICHTEXT_ARRAY_LENGTH then final_objs ++ [obj]
    else final_objs ++ (chunkSucc 99 rich_text).map .paragraph

/-- Python `Html2JsonBase.ensure_array_len`. -/
def ensure_array_len (blocks : List PBlock) : List PBlock :=
  blocks.foldl ensureBody []

/-- Python `NOTION_COLORS` of `utils/table.py`: the fixed 11-name palette
sequence for select option colors (with `"green"` listed twice). -/
def NOTION_COLORS : List String :=
  ["pink", "purple", "red", "yellow", "green", "orange", "blue", "brown",
   "green", "default", "gray"]

/-- A column header entry of the database schema (`self.data["table"]
["headers"][col]`): select/multi-select carry their colored options, the
other types only their type tag with an empty payload. -/
inductive HeaderData where
  | selectH (colType : String) (options : List (String × String))
  | simpleH (colType : String)
deriving DecidableEq, Repr

/-- A row property value produced by
`convert_to_notion_database_schema`. -/
inductive PropVal where
  | selectV (name : String)
  | multiSelectV (names : List String)
  | filesUpload (name : String) (uploadId : String)
  | filesExternal (url : String)
  | dateV (start : String)
  | checkboxV (b : Bool)
  | urlV (u : String)
  | emailV (e : String)
  | richTextV (content : String)
deriving DecidableEq, Repr

/-- Assignment into the `row_properties` dict. -/
def propSet (d : List (String × PropVal)) (k : String) (v : PropVal) :
    List (String × PropVal) :=
  if d.any (fun p => p.1 == k) then
    d.map (fun p => if p.1 == k then (p.1, v) else p)
  else d ++ [(k, v)]

/-- Python `NotionTableConverter.convert_header`: builds the header entry for a
column type (select/multi-select options get colors assigned round-robin
over `NOTION_COLORS`; every other known or unknown type maps to its fixed
entry, defaulting to rich_text) and writes it only when the column name
has no header yet (`if not headers.get(col_name)` — stored entries are
non-empty dicts, hence truthy), so header definitions are
first-write-wins. -/
def convert_header (headers : List (String × HeaderData)) (col_name col_type : String)
    (value : List String) : List (String × HeaderData) :=
  let data :=
    if col_type == "select" || col_type == "multi_select" then
      HeaderData.selectH col_type
        ((value.enum).map (fun p => (p.2, NOTION_COLORS[p.1 % NOTION_COLORS.length]!)))
    else if col_type == "date" then .simpleH "date"
    else if col_type == "checkbox" then .simpleH "checkbox"
    else if col_type == "image" then .simpleH "files"
    else if col_type == "link" then .simpleH "url"
    else if col_type == "email" then .simpleH "email"
    else .simpleH "rich_text"
  if (headers.find? (fun p => p.1 == col_name)).isSome then headers
  else headers ++ [(col_name, data)]

/-- Python `NotionTableConverter.extract_headers` on a present header row: the
`(text, declared type)` pairs of its `th` cells, the type defaulting to
`"text"`. -/
def extract_headers_row (header_row : HNode) : List (String × String) :=
  (findAllDesc "th" header_row).map
    (fun th => (getTextStrip th, getAttrD th "data-column-type" "text"))

/-- The per-column body of the row loop of
`convert_to_notion_database_schema`: one `(col_name, col_type)` header at
position `col_index`, threading the header map and the row properties.
The select branch indexes `selected_options[0]` guarded only by
`select_options` being non-empty, so a select cell whose options carry no
`selected` attribute raises IndexError. -/
def processColumn (tds : List HNode) (col_index : Nat) (col_name col_type : String)
    (headers : List (String × HeaderData)) (props : List (String × PropVal)) :
    Except String (List (String × HeaderData) × List (String × PropVal)) :=
  if tds.length ≤ col_index then .ok (headers, props)
  else
    let td := tds.getD col_index (.text "")
    if col_type == "select" then
      let select_options := (findAllDesc "option" td).map getTextStrip
      let selected_options :=
        ((findAllDesc "option" td).filter (fun o => hasAttr o "selected")).map getTextStrip
      if !select_options.isEmpty then
        match selected_options with
        | [] => .error "IndexError"
        | s :: _ =>
          .ok (convert_header headers col_name col_type select_options,
            propSet props col_name (.selectV s))
      else .ok (convert_header headers col_name col_type select_options, props)
    else if col_type == "multi_select" then
      let select_options := (findAllDesc "option" td).map getTextStrip
      let selected_options :=
        ((findAllDesc "option" td).filter (fun o => hasAttr o "selected")).map getTextStrip
      if !select_options.isEmpty then
        .ok (convert_header headers col_name col_type select_options,
          propSet props col_name (.multiSelectV selected_options))
      else .ok (convert_header headers col_name col_type select_options, props)
    else if col_type == "image" then
      let props :=
        match findFirst "img" td with
        | none => props
        | some img =>
          match getAttr img "data-notion-file-upload-id" with
          | some fid =>
            if fid != "" then
              propSet props col_name
                (.filesUpload (if getAttrD img "alt" "" != "" then getAttrD img "alt" ""
                  else "File") fid)
            else if getAttrD img "src" "" != "" then
              propSet props col_name (.filesExternal (getAttrD img "src" ""))
            else props
          | none =>
            if getAttrD img "src" "" != "" then
              propSet props col_name (.filesExternal (getAttrD img "src" ""))
            else props
      .ok (convert_header headers col_name col_type [], props)
    else if col_type == "date" then
      let text := getTextStrip td
      let props := if text != "" then propSet props col_name (.dateV text) else props
      .ok (convert_header headers col_name col_type [], props)
    else if col_type == "checkbox" then
      let checkbox := findFirstWithAttr "input" "type" "checkbox" td
      let props := propSet props col_name
        (.checkboxV (match checkbox with | some cb => hasAttr cb "checked" | none => false))
      .ok (convert_header headers col_name col_type [], props)
    else if col_type == "link" then
      let props :=
        match findFirst "a" td with
        | some a => if getAttrD a "href" "" != "" then
            propSet props col_name (.urlV (getAttrD a "href" "")) else props
        | none => props
      .ok (convert_header headers col_name col_type [], props)
    else if col_type == "person" then
      let text := getTextStrip td
      if truthyAttr td "data-person-email" then
        .ok (convert_header headers col_name "email" [],
          propSet props col_name (.emailV (getAttrD td "data-person-email" "")))
      else
        .ok (convert_header headers col_name col_type [],
          propSet props col_name (.richTextV text))
    else
      let text := getTextStrip td
      .ok (convert_header headers col_name col_type [],
        propSet props col_name (.richTextV text))

/-- The column loop over the header list for one row. -/
def processColumns (tds : List HNode) (cols : List (String × String)) (col_index : Nat)
    (headers : List (String × HeaderData)) (props : List (String × PropVal)) :
    Except String (List (String × HeaderData) × List (String × PropVal)) :=
  match cols with
  | [] => .ok (headers, props)
  | (col_name, col_type) :: rest => do
    let (headers, props) ← processColumn tds col_index col_name col_type headers props
    processColumns tds rest (col_index + 1) headers props

/-- The row loop of `convert_to_notion_database_schema` over
`soup.find_all("tr")[1:]`, threading the header map. -/
def processRows (trs : List HNode) (cols : List (String × String))
    (headers : List (String × HeaderData)) (rows : List (List (String × PropVal))) :
    Except String ((List (String × HeaderData)) × List (List (String × PropVal))) :=
  match trs with
  | [] => .ok (headers, rows)
  | tr :: rest => do
    let tds := findAllDesc "td" tr
    let (headers, props) ← processColumns tds cols 0 headers []
    processRows rest cols headers (rows ++ [props])

/-- The output `self.data` of `NotionTableConverter`. -/
structure DbTable where
  database_id : Option String
  headers : List (String × HeaderData)
  rows : List (List (String × PropVal))
deriving DecidableEq, Repr

/-- Python `NotionTableConverter.convert_to_notion_database_schema` (together
with `extract_headers` and the constructor): on a table with no `tr` at
all, `soup.find("tr")` is `None` and `header_row.find_all("th")` raises
AttributeError; otherwise the first `tr` fixes the `(name, type)` columns
and each later `tr` becomes a row property dict. -/
def convert_to_notion_database_schema (soup : HNode) : Except String DbTable :=
  match findAllDesc "tr" soup with
  | [] => .error "AttributeError"
  | header_row :: rest => do
    let cols := extract_headers_row header_row
    let (headers, rows) ← processRows rest cols [] []
    .ok { database_id := getAttr soup "data-table-id", headers := headers, rows := rows }

/-- One element of a table cell in the generic table path: a rich-text
object, the `files` group collecting the file uploads of a data cell, or a
first object of a header cell relabelled (`col[0].update(type=t)`). -/
inductive CellItem where
  | rich (r : RichObj)
  | filesGroup (files : List RichObj)
  | retyped (r : RichObj) (newType : String)
deriving DecidableEq, Repr

/-- The data-cell file collection test of `convert_table`:
`item.get("type") in ["image", "file"] and "file_upload" in
item.get(item["type"], {})` (the payload dict has a `file_upload` key
exactly when the source type is `file_upload`). -/
def isFileUploadCellItem (r : RichObj) : Bool :=
  match r with
  | .imageBlock _ st _ _ => st == "file_upload"
  | _ => false

/-- The data-cell (`td`) conversion of `convert_table`: generate the
inline objects, divert file uploads into a `files` group that is
prepended to the remaining objects when non-empty. -/
def tdCellConv (valid : String → Bool) (td : HNode) : List CellItem :=
  let col := generate_inline_obj valid td
  let files := col.filter isFileUploadCellItem
  let remaining := col.filter (fun i => !isFileUploadCellItem i)
  (if !files.isEmpty then [CellItem.filesGroup files] else [])
    ++ remaining.map CellItem.rich

/-- The header-cell (`th`) conversion of `convert_table`: generate the
inline objects; when a `data-column-type` of `image`/`date`/`email`/
`select` is declared and the cell is non-empty, the type key of the first
object is relabelled (`image` to `files`, the others to themselves). -/
def thCellConv (valid : String → Bool) (td : HNode) : List CellItem :=
  let col := generate_inline_obj valid td
  let dct := getAttrD td "data-column-type" ""
  let newType :=
    if dct == "image" then some "files"
    else if dct == "date" then some "date"
    else if dct == "email" then some "email"
    else if dct == "select" then some "select"
    else none
  match col with
  | [] => []
  | x :: rest =>
    (match newType with
     | some t => CellItem.retyped x t
     | none => CellItem.rich x) :: rest.map CellItem.rich

/-- The row loop of `convert_table`, threading `table_width` (running
maximum of the used cell counts), `has_header` (switched on by a row with
no `td` cell, which is then read through its `th` cells) and the rows. -/
def tableLoop (valid : String → Bool) (trs : List HNode) (width : Nat)
    (has_header : Bool) (rows : List (List (List CellItem))) :
    Nat × Bool × List (List (List CellItem)) :=
  match trs with
  | [] => (width, has_header, rows)
  | tr :: rest =>
    let tds := findAllDesc "td" tr
    if tds.isEmpty then
      let ths := findAllDesc "th" tr
      tableLoop valid rest (max width ths.length) true
        (rows ++ [ths.map (thCellConv valid)])
    else
      tableLoop valid rest (max width tds.length) has_header
        (rows ++ [tds.map (tdCellConv valid)])

/-- The generic table block (`table_obj`); each row dict is represented by
its `cells` list. -/
structure TableObj where
  has_row_header : Bool
  has_column_header : Bool
  table_width : Nat
  children : List (List (List CellItem))
  caption : Option String
deriving DecidableEq, Repr

/-- The result of `convert_table`: `None` when no `tr` exists, the
database projector output on the database pathway, or the generic table
block. -/
inductive TableResult where
  | noTable
  | dbData (d : DbTable)
  | tableBlock (t : TableObj)
deriving DecidableEq, Repr

/-- Python `Html2JsonBase.convert_table`.  The database pathway is taken when the
conversion runs in database mode or the element carries
`data-coda-grid-configuration-set="SimpleTable"`; it hands the element to
`NotionTableConverter` and returns its data.  The generic path requires at
least one `tr` (else `None`), resolves the caption from the element or a
nested `table`, and folds the row loop, the width floor being the first
count of `td` cells in the first row. -/
def convert_table (valid : String → Bool) (is_databases_conversion : Bool)
    (soup : HNode) : Except String TableResult :=
  let grid := getAttrD soup "data-coda-grid-configuration-set" ""
  if is_databases_conversion || (grid != "" && grid == "SimpleTable") then
    (convert_to_notion_database_schema soup).map .dbData
  else
    match findAllDesc "tr" soup with
    | [] => .ok .noTable
    | tr0 :: trRest =>
      let caption :=
        match getAttr soup "data-caption" with
        | some c =>
          if c != "" then some c
          else (findFirst "table" soup).bind (fun t => getAttr t "data-caption")
        | none => (findFirst "table" soup).bind (fun t => getAttr t "data-caption")
      let table_width := (findAllDesc "td" tr0).length
      let (w, h, rows) := tableLoop valid (tr0 :: trRest) table_width false []
      .ok (.tableBlock
        { has_row_header := false, has_column_header := h, table_width := w,
          children := rows, caption := caption })

/-- The inline-style parse as the specification words it: each `;`-rule is
split on the FIRST `:` only, the property name is the text before it and
the value is EVERYTHING after that first colon (stripped like the source
strips, lower-cased); rules with no colon are ignored.  Written from the
spec sentence, to be compared with `get_tag_style`. -/
def styleClaimParse (style : String) : List (String × String) :=
  (splitChar ';' style.data).foldl
    (fun d rule =>
      if rule.contains ':' then
        pyDictSet d (pyStrip ⟨rule.takeWhile (fun c => c != ':')⟩)
          (pyLower (pyStrip ⟨(rule.dropWhile (fun c => c != ':')).tail⟩))
      else d)
    []

/-- The amended reading of the inline-style parse: as `styleClaimParse`,
except that the value is only the text after the first colon UP TO the
next colon (the source indexes segment 1 of the full split).  Written as
an independent reformulation, to be proved equal to `get_tag_style`. -/
def styleAmendedParse (style : String) : List (String × String) :=
  (splitChar ';' style.data).foldl
    (fun d rule =>
      if rule.contains ':' then
        pyDictSet d (pyStrip ⟨rule.takeWhile (fun c => c != ':')⟩)
          (pyLower (pyStrip
            ⟨((rule.dropWhile (fun c => c != ':')).tail).takeWhile (fun c => c != ':')⟩))
      else d)
    []

/-- The leftmost minimum of a non-empty weighted list, written as an
independent specification for the color scan: the head, unless a strictly
smaller weight appears later. -/
def firstMin : List (String × Int) → Option (String × Int)
  | [] => none
  | x :: xs =>
    match firstMin xs with
    | none => some x
    | some y => if y.2 < x.2 then some y else some x

/-- The names of the 10 palette entries. -/
def paletteNames : List String := notion_color.map NColor.name

theorem chunkSucc_cons (s : Nat) (x : α) (xs : List α) :
    chunkSucc s (x :: xs) = (x :: xs.take s) :: chunkSucc s (xs.drop s) := by
  rw [chunkSucc]

theorem chunkSucc_nil (s : Nat) : chunkSucc s ([] : List α) = [] := by
  rw [chunkSucc]

theorem chunkSucc_join_aux (s : Nat) :
    ∀ (n : Nat) (l : List α), l.length ≤ n → (chunkSucc s l).flatten = l := by
  intro n
  induction n with
  | zero =>
    intro l h
    have hl : l = [] := List.eq_nil_of_length_eq_zero (Nat.le_zero.mp h)
    subst hl
    simp [chunkSucc_nil]
  | succ n ih =>
    intro l h
    match l with
    | [] => simp [chunkSucc_nil]
    | x :: xs =>
      rw [chunkSucc_cons, List.flatten_cons]
      rw [ih (xs.drop s) (by simp only [List.length_drop]; simp at h; omega)]
      simp [List.take_append_drop]

/-- The chunks concatenate back to the original list. -/
theorem chunkSucc_join (s : Nat) (l : List α) : (chunkSucc s l).flatten = l :=
  chunkSucc_join_aux s l.length l (Nat.le_refl _)

theorem chunkSucc_length_aux (s : Nat) :
    ∀ (n : Nat) (l : List α), l.length ≤ n →
      (chunkSucc s l).length = (l.length + s) / (s + 1) := by
  intro n
  induction n with
  | zero =>
    intro l h
    have hl : l = [] := List.eq_nil_of_length_eq_zero (Nat.le_zero.mp h)
    subst hl
    simp [chunkSucc_nil, Nat.div_eq_of_lt (Nat.lt_succ_self s)]
  | succ n ih =>
    intro l h
    match l with
    | [] => simp [chunkSucc_nil, Nat.div_eq_of_lt (Nat.lt_succ_self s)]
    | x :: xs =>
      rw [chunkSucc_cons]
      simp only [List.length_cons]
      rw [ih (xs.drop s) (by simp only [List.length_drop]; simp at h; omega)]
      simp only [List.length_drop]
      have h1 : xs.length + 1 + s = xs.length + (s + 1) := by omega
      rw [h1, Nat.add_div_right _ (Nat.succ_pos s)]
      rcases Nat.le_total xs.length s with hle | hge
      · have h2 : xs.length - s = 0 := by omega
        rw [h2, Nat.div_eq_of_lt (by omega), Nat.zero_add,
          Nat.div_eq_of_lt (by omega)]
      · have h2 : xs.length - s + s = xs.length := by omega
        rw [h2, Nat.add_comm]

/-- The number of chunks is the length divided by the chunk size, rounded
up. -/
theorem chunkSucc_length (s : Nat) (l : List α) :
    (chunkSucc s l).length = (l.length + s) / (s + 1) :=
  chunkSucc_length_aux s l.length l (Nat.le_refl _)

theorem chunkSucc_mem_aux (s : Nat) :
    ∀ (n : Nat) (l : List α), l.length ≤ n →
      ∀ c ∈ chunkSucc s l, c.length ≤ s + 1 ∧ c ≠ [] := by
  intro n
  induction n with
  | zero =>
    intro l h
    have hl : l = [] := List.eq_nil_of_length_eq_zero (Nat.le_zero.mp h)
    subst hl
    simp [chunkSucc_nil]
  | succ n ih =>
    intro l h
    match l with
    | [] => simp [chunkSucc_nil]
    | x :: xs =>
      rw [chunkSucc_cons]
      intro c hc
      rcases List.mem_cons.mp hc with hc | hc
      · subst hc
        constructor
        · simp only [List.length_cons]
          have := List.length_take_le s xs
          omega
        · simp
      · exact ih (xs.drop s) (by simp only [List.length_drop]; simp at h; omega) c hc

/-- Every chunk is non-empty and no longer than the chunk size. -/
theorem chunkSucc_mem (s : Nat) (l : List α) :
    ∀ c ∈ chunkSucc s l, c.length ≤ s + 1 ∧ c ≠ [] :=
  chunkSucc_mem_aux s l.length l (Nat.le_refl _)

theorem filterMap_generate_text_chunks (params : TextParams) (L : List (List Char))
    (hL : ∀ c ∈ L, c ≠ []) :
    L.filterMap (fun chunk => generate_text { params with plain_text := ⟨chunk⟩ })
      = L.map (fun c => RichObj.textObj ⟨c⟩
          (if (annotsOf params).isEmptyA then none else some (annotsOf params))) := by
  induction L with
  | nil => rfl
  | cons c cs ih =>
    have hcne : ((⟨c⟩ : String) == "") = false := by
      apply beq_eq_false_iff_ne.mpr
      intro h
      exact hL c (List.mem_cons_self c cs) (congrArg String.data h)
    rw [List.filterMap_cons, List.map_cons]
    rw [ih (fun x hx => hL x (List.mem_cons_of_mem c hx))]
    simp [generate_text, hcne, annotsOf]

/-- The loop body on a non-break leaf with no link URL and no image
source reaches the plain-text branch. -/
theorem processLeaf_plain (valid : String → Bool) (res : List RichObj)
    (text : String) (params : TextParams)
    (hbr : (text == "<br>") = false)
    (hurl : ((params.url).getD "" != "") = false)
    (hsrc : ((params.src).getD "" != "") = false) :
    processLeaf valid res text params =
      if text.data.length ≤ TEXT_MAX_LENGTH then res ++ (generate_text params).toList
      else res ++ (chunkSucc 1999 text.data).filterMap
        (fun chunk => generate_text { params with plain_text := ⟨chunk⟩ }) := by
  simp only [processLeaf, hbr, hurl, hsrc, Bool.false_and, Bool.false_eq_true, if_false]

/-- C1: a plain-text leaf unit (no link URL, no image source, not a line
break) of length at most `TEXT_MAX_LENGTH` makes the loop body of
`generate_inline_obj` emit exactly one text object carrying the content
verbatim; a longer one is emitted as ceil(L/2000) text objects of length
at most 2000 each whose contents concatenate, in order, to the original
content.  (Leaf units produced by `extract_text_and_parents` always have
non-empty content.) -/
theorem c1_plain_text_chunking (valid : String → Bool) (res : List RichObj)
    (params : TextParams)
    (hne : params.plain_text ≠ "")
    (hbr : params.plain_text ≠ "<br>")
    (hurl : (params.url).getD "" = "")
    (hsrc : (params.src).getD "" = "") :
    (params.plain_text.data.length ≤ 2000 →
      processLeaf valid res params.plain_text params
        = res ++ [RichObj.textObj params.plain_text
            (if (annotsOf params).isEmptyA then none else some (annotsOf params))])
    ∧ (2000 < params.plain_text.data.length →
      ∃ out, processLeaf valid res params.plain_text params = res ++ out ∧
        out.length = (params.plain_text.data.length + 1999) / 2000 ∧
        (out.map (fun o => (rtContent o).data)).flatten = params.plain_text.data ∧
        ∀ o ∈ out, ∃ c, o = RichObj.textObj ⟨c⟩
            (if (annotsOf params).isEmptyA then none else some (annotsOf params))
          ∧ c.length ≤ 2000) := by
  have hbr' : (params.plain_text == "<br>") = false := beq_eq_false_iff_ne.mpr hbr
  have hne' : (params.plain_text == "") = false := beq_eq_false_iff_ne.mpr hne
  have hurl' : (((params.url).getD "" != "") = false) := by rw [hurl]; rfl
  have hsrc' : (((params.src).getD "" != "") = false) := by rw [hsrc]; rfl
  have hplain := processLeaf_plain valid res params.plain_text params hbr' hurl' hsrc'
  have hmax : TEXT_MAX_LENGTH = 2000 := rfl
  constructor
  · intro hlen
    rw [hplain, if_pos (by rw [hmax]; exact hlen)]
    simp [generate_text, hne']
  · intro hlen
    have hmem := chunkSucc_mem 1999 params.plain_text.data
    refine ⟨(chunkSucc 1999 params.plain_text.data).map
      (fun c => RichObj.textObj ⟨c⟩
        (if (annotsOf params).isEmptyA then none else some (annotsOf params))),
      ?_, ?_, ?_, ?_⟩
    · rw [hplain, if_neg (by rw [hmax]; omega)]
      rw [filterMap_generate_text_chunks params _ (fun c hc => (hmem c hc).2)]
    · rw [List.length_map, chunkSucc_length]
    · rw [List.map_map]
      have hcomp : ((fun o => (rtContent o).data) ∘
          (fun c => RichObj.textObj (⟨c⟩ : String)
            (if (annotsOf params).isEmptyA then none else some (annotsOf params))))
          = id := by
        funext c
        rfl
      rw [hcomp, List.map_id, chunkSucc_join]
    · intro o ho
      rcases List.mem_map.mp ho with ⟨c, hc, rfl⟩
      exact ⟨c, rfl, (hmem c hc).1⟩

/-- Witness for C1 at a concrete short leaf. -/
theorem c1_plain_text_chunking_witness :
    processLeaf (fun _ => true) [] "hi" { plain_text := "hi" }
      = [] ++ [RichObj.textObj "hi"
          (if (annotsOf { plain_text := "hi" }).isEmptyA then none
           else some (annotsOf { plain_text := "hi" }))] :=
  (c1_plain_text_chunking (fun _ => true) [] { plain_text := "hi" }
    (by decide) (by decide) (by decide) (by decide)).1 (by decide)

theorem string_append_data (a b : String) : (a ++ b).data = a.data ++ b.data := rfl

theorem is_same_iff (a b : RichObj) :
    is_same_annotations_text a b = true ↔
      (rtType a = "text" ∧ rtType b = "text" ∧
       (rtContent a).data.length + (rtContent b).data.length ≤ 2000 ∧
       rtAnnots a = rtAnnots b ∧ rtHref a = rtHref b) := by
  simp only [is_same_annotations_text, TEXT_MAX_LENGTH]
  split_ifs with h1 h2
  · simp only [Bool.false_eq_true, false_iff]
    rintro ⟨ha, hb, -⟩
    simp only [Bool.or_eq_true, bne_iff_ne] at h1
    rcases h1 with h | h
    · exact h ha
    · exact h hb
  · simp only [Bool.false_eq_true, false_iff]
    rintro ⟨-, -, hlen, -⟩
    omega
  · simp only [Bool.or_eq_true, bne_iff_ne, not_or, not_not] at h1
    simp only [Bool.and_eq_true, beq_iff_eq]
    refine ⟨fun ⟨ha, hh⟩ => ⟨h1.1, h1.2, by omega, ha, hh⟩, fun ⟨_, _, _, ha, hh⟩ => ⟨ha, hh⟩⟩

theorem merge_fold_step (x y : RichObj) (rest : List RichObj) :
    merge_rich_text (x :: y :: rest) =
      if is_same_annotations_text x y then
        merge_rich_text (setContent x (rtContent x ++ rtContent y) :: rest)
      else x :: merge_rich_text (y :: rest) := by
  show mergeLoop x (y :: rest) = _
  rw [mergeLoop]
  split_ifs with h
  · rfl
  · rfl

theorem merge_triple (c1 c2 c3 : String) (a : Option Annots)
    (hlen : c1.data.length + c2.data.length + c3.data.length ≤ 2000) :
    merge_rich_text [RichObj.textObj c1 a, RichObj.textObj c2 a, RichObj.textObj c3 a] =
      [RichObj.textObj (c1 ++ c2 ++ c3) a] := by
  have s1 : is_same_annotations_text (RichObj.textObj c1 a) (RichObj.textObj c2 a) = true :=
    (is_same_iff _ _).mpr ⟨rfl, rfl, by simp only [rtContent]; omega, rfl, rfl⟩
  have s2 : is_same_annotations_text (RichObj.textObj (c1 ++ c2) a)
      (RichObj.textObj c3 a) = true :=
    (is_same_iff _ _).mpr ⟨rfl, rfl,
      by simp only [rtContent, string_append_data, List.length_append]; omega, rfl, rfl⟩
  rw [merge_fold_step, if_pos s1]
  show merge_rich_text [RichObj.textObj (c1 ++ c2) a, RichObj.textObj c3 a] = _
  rw [merge_fold_step, if_pos s2]
  rfl

/-- C6: `merge_rich_text` merges adjacent objects exactly under the
condition of `is_same_annotations_text` (both of type `"text"`, same
annotations and href, combined length at most 2000); it is the left fold
in which the running object absorbs a mergeable successor and is flushed
otherwise; three identically annotated text objects within the limit
collapse to one carrying the concatenation in order; no merge happens at
a boundary whose combined length exceeds 2000; a non-text object is never
merged. -/
theorem c6_merge_rich_text_spec :
    (∀ a b : RichObj, is_same_annotations_text a b = true ↔
      (rtType a = "text" ∧ rtType b = "text" ∧
       (rtContent a).data.length + (rtContent b).data.length ≤ 2000 ∧
       rtAnnots a = rtAnnots b ∧ rtHref a = rtHref b))
    ∧ (∀ (x y : RichObj) (rest : List RichObj),
      merge_rich_text (x :: y :: rest) =
        if is_same_annotations_text x y then
          merge_rich_text (setContent x (rtContent x ++ rtContent y) :: rest)
        else x :: merge_rich_text (y :: rest))
    ∧ (∀ (c1 c2 c3 : String) (a : Option Annots),
      c1.data.length + c2.data.length + c3.data.length ≤ 2000 →
      merge_rich_text [RichObj.textObj c1 a, RichObj.textObj c2 a, RichObj.textObj c3 a] =
        [RichObj.textObj (c1 ++ c2 ++ c3) a])
    ∧ (∀ (x y : RichObj) (rest : List RichObj),
      2000 < (rtContent x).data.length + (rtContent y).data.length →
      merge_rich_text (x :: y :: rest) = x :: merge_rich_text (y :: rest))
    ∧ (∀ (x y : RichObj) (rest : List RichObj),
      rtType x ≠ "text" ∨ rtType y ≠ "text" →
      merge_rich_text (x :: y :: rest) = x :: merge_rich_text (y :: rest)) := by
  refine ⟨is_same_iff, merge_fold_step, merge_triple, ?_, ?_⟩
  · intro x y rest hlen
    rw [merge_fold_step, if_neg ?_]
    intro h
    rcases (is_same_iff x y).mp h with ⟨-, -, h2, -⟩
    omega
  · intro x y rest hty
    rw [merge_fold_step, if_neg ?_]
    intro h
    rcases (is_same_iff x y).mp h with ⟨hx, hy, -⟩
    rcases hty with h | h
    · exact h hx
    · exact h hy

/-- Witness for C6: three mergeable plain text objects collapse. -/
theorem c6_merge_rich_text_witness :
    merge_rich_text [RichObj.textObj "a" none, RichObj.textObj "b" none,
      RichObj.textObj "c" none] = [RichObj.textObj ("a" ++ "b" ++ "c") none] :=
  c6_merge_rich_text_spec.2.2.1 "a" "b" "c" none (by decide)

theorem ensureBody_hom (a : List PBlock) (b : PBlock) :
    ensureBody a b = a ++ ensureBody [] b := by
  cases b with
  | otherBlock t => simp [ensureBody]
  | paragraph rt =>
    simp only [ensureBody]
    split_ifs <;> simp

theorem ensure_foldl_acc (ys : List PBlock) :
    ∀ acc : List PBlock, ys.foldl ensureBody acc = acc ++ ys.foldl ensureBody [] := by
  induction ys with
  | nil => intro acc; simp
  | cons y ys ih =>
    intro acc
    simp only [List.foldl_cons]
    rw [ih (ensureBody acc y), ensureBody_hom acc y, ih (ensureBody [] y),
      List.append_assoc]

theorem ensure_array_len_append (xs ys : List PBlock) :
    ensure_array_len (xs ++ ys) = ensure_array_len xs ++ ensure_array_len ys := by
  unfold ensure_array_len
  rw [List.foldl_append, ensure_foldl_acc ys (xs.foldl ensureBody [])]

/-- C7: inside any block list, a paragraph block whose rich_text has more
than `RICHTEXT_ARRAY_LENGTH` elements is replaced by ceil(N/100)
paragraph blocks carrying the consecutive slices (each of at most 100
elements, concatenating back to the original array in order), while a
paragraph with at most 100 elements passes through unchanged. -/
theorem c7_ensure_array_len_split (pre post : List PBlock) (rts : List RichObj) :
    (100 < rts.length →
      ensure_array_len (pre ++ [PBlock.paragraph rts] ++ post)
          = ensure_array_len pre ++ (chunkSucc 99 rts).map PBlock.paragraph
            ++ ensure_array_len post
        ∧ (chunkSucc 99 rts).length = (rts.length + 99) / 100
        ∧ (chunkSucc 99 rts).flatten = rts
        ∧ ∀ c ∈ chunkSucc 99 rts, c.length ≤ 100)
    ∧ (rts.length ≤ 100 →
      ensure_array_len (pre ++ [PBlock.paragraph rts] ++ post)
        = ensure_array_len pre ++ [PBlock.paragraph rts] ++ ensure_array_len post) := by
  have hsingle : ensure_array_len [PBlock.paragraph rts]
      = ensureBody [] (PBlock.paragraph rts) := by
    simp [ensure_array_len]
  have happ : ensure_array_len (pre ++ [PBlock.paragraph rts] ++ post)
      = ensure_array_len pre ++ ensureBody [] (PBlock.paragraph rts)
        ++ ensure_array_len post := by
    rw [ensure_array_len_append, ensure_array_len_append, hsingle]
  have hlimit : RICHTEXT_ARRAY_LENGTH = 100 := rfl
  constructor
  · intro hlen
    refine ⟨?_, ?_, chunkSucc_join 99 rts, fun c hc => (chunkSucc_mem 99 rts c hc).1⟩
    · rw [happ]
      simp only [ensureBody, hlimit]
      rw [if_neg (by omega)]
      simp
    · rw [chunkSucc_length]
  · intro hlen
    rw [happ]
    simp only [ensureBody, hlimit]
    rw [if_pos (by omega)]
    simp

/-- Witness for C7 at a 101-element paragraph. -/
theorem c7_ensure_array_len_witness :
    ensure_array_len
        ([] ++ [PBlock.paragraph (List.replicate 101 (RichObj.textObj "x" none))] ++ [])
          = ensure_array_len []
            ++ (chunkSucc 99 (List.replicate 101 (RichObj.textObj "x" none))).map
              PBlock.paragraph
            ++ ensure_array_len []
      ∧ (chunkSucc 99 (List.replicate 101 (RichObj.textObj "x" none))).length
          = ((List.replicate 101 (RichObj.textObj "x" none)).length + 99) / 100
      ∧ (chunkSucc 99 (List.replicate 101 (RichObj.textObj "x" none))).flatten
          = List.replicate 101 (RichObj.textObj "x" none)
      ∧ ∀ c ∈ chunkSucc 99 (List.replicate 101 (RichObj.textObj "x" none)),
          c.length ≤ 100 :=
  (c7_ensure_array_len_split [] [] _).1 (by simp)

theorem firstMin_spec :
    ∀ (l : List (String × Int)), l ≠ [] →
      ∃ (i : Nat) (hi : i < l.length), firstMin l = some (l.get ⟨i, hi⟩)
        ∧ (∀ (j : Nat) (hj : j < l.length), (l.get ⟨i, hi⟩).2 ≤ (l.get ⟨j, hj⟩).2)
        ∧ (∀ (j : Nat) (hj : j < l.length), j < i →
            (l.get ⟨i, hi⟩).2 < (l.get ⟨j, hj⟩).2) := by
  intro l
  induction l with
  | nil => intro h; exact absurd rfl h
  | cons x xs ih =>
    intro _
    by_cases hxs : xs = []
    · subst hxs
      refine ⟨0, by simp, rfl, ?_, ?_⟩
      · intro j hj
        have hj0 : j = 0 := by simpa using hj
        subst hj0
        exact le_refl _
      · intro j hj hlt
        omega
    · obtain ⟨i, hi, heq, hmin, hstrict⟩ := ih hxs
      have hfm : firstMin (x :: xs)
          = if (xs.get ⟨i, hi⟩).2 < x.2 then some (xs.get ⟨i, hi⟩) else some x := by
        simp only [firstMin, heq]
      by_cases hlt : (xs.get ⟨i, hi⟩).2 < x.2
      · refine ⟨i + 1, by simp only [List.length_cons]; omega, ?_, ?_, ?_⟩
        · rw [hfm, if_pos hlt]
          rfl
        · intro j hj
          match j with
          | 0 => exact le_of_lt hlt
          | j + 1 => exact hmin j (by simpa using hj)
        · intro j hj hjlt
          match j with
          | 0 => exact hlt
          | j + 1 => exact hstrict j (by simpa using hj) (by omega)
      · refine ⟨0, by simp, ?_, ?_, ?_⟩
        · rw [hfm, if_neg hlt]
          rfl
        · intro j hj
          match j with
          | 0 => exact le_refl _
          | j + 1 =>
            have h1 : x.2 ≤ (xs.get ⟨i, hi⟩).2 := by omega
            exact le_trans h1 (hmin j (by simpa using hj))
        · intro j hj hjlt
          omega

theorem closestLoop_eq_firstMin (r g b : Nat) (l : List NColor) :
    ∀ (bn : String) (bd : Int),
      closestLoop r g b (some (bn, bd)) l =
        match firstMin (l.map (fun c => (c.name, colorDistSq r g b c))) with
        | none => some (bn, bd)
        | some y => if y.2 < bd then some y else some (bn, bd) := by
  induction l with
  | nil => intro bn bd; rfl
  | cons c cs ih =>
    intro bn bd
    simp only [closestLoop, List.map_cons, firstMin]
    rcases hF : firstMin (cs.map fun c => (c.name, colorDistSq r g b c)) with _ | y
    · rw [ih, ih, hF]
    · rw [ih, ih, hF]
      dsimp only
      by_cases hyd : y.2 < colorDistSq r g b c
      · rw [if_pos hyd]
        dsimp only
        split_ifs <;> first | rfl | omega
      · rw [if_neg hyd]
        dsimp only
        split_ifs <;> first | rfl | omega

theorem closest_color_eq_firstMin (r g b : Nat) :
    closest_color r g b =
      (firstMin (notion_color.map (fun c => (c.name, colorDistSq r g b c)))).map
        Prod.fst := by
  show (closestLoop r g b none notion_color).map Prod.fst = _
  have h0 : closestLoop r g b none notion_color
      = closestLoop r g b
          (some ("default", colorDistSq r g b ⟨"default", 0, 0, 0⟩))
          (notion_color.tail) := rfl
  rw [h0, closestLoop_eq_firstMin]
  have h1 : notion_color.map (fun c => (c.name, colorDistSq r g b c))
      = ("default", colorDistSq r g b ⟨"default", 0, 0, 0⟩)
        :: (notion_color.tail).map (fun c => (c.name, colorDistSq r g b c)) := rfl
  rw [h1]
  simp only [firstMin]

/-- C8: the color scan is total and deterministic on every RGB triple: it
returns the name of the palette entry at the first position realising the
minimum (squared) distance, so ties resolve in favour of the earliest
palette entry; the result is always one of the 10 palette names; and in
particular black maps to `"default"` and pure red to `"red"`, also
through the `rgb(...)` string form handled by `get_color`. -/
theorem c8_closest_color_total_first_min (r g b : Nat) :
    (∃ (i : Nat) (hi : i < notion_color.length),
      closest_color r g b = some ((notion_color.get ⟨i, hi⟩).name)
        ∧ (∀ (j : Nat) (hj : j < notion_color.length),
            colorDistSq r g b (notion_color.get ⟨i, hi⟩)
              ≤ colorDistSq r g b (notion_color.get ⟨j, hj⟩))
        ∧ (∀ (j : Nat) (hj : j < notion_color.length), j < i →
            colorDistSq r g b (notion_color.get ⟨i, hi⟩)
              < colorDistSq r g b (notion_color.get ⟨j, hj⟩)))
    ∧ (∀ n, closest_color r g b = some n → n ∈ paletteNames)
    ∧ closest_color 0 0 0 = some "default"
    ∧ closest_color 255 0 0 = some "red"
    ∧ get_color [("color", "rgb(0,0,0)")] [] = "default"
    ∧ get_color [("color", "rgb(255,0,0)")] [] = "red" := by
  have hne : notion_color.map (fun c => (c.name, colorDistSq r g b c)) ≠ [] := by
    simp [notion_color]
  obtain ⟨i, hi, heq, hmin, hstrict⟩ :=
    firstMin_spec (notion_color.map (fun c => (c.name, colorDistSq r g b c))) hne
  have hlen : (notion_color.map (fun c => (c.name, colorDistSq r g b c))).length
      = notion_color.length := List.length_map _ _
  have hiN : i < notion_color.length := by omega
  have hmain : ∃ (i : Nat) (hi : i < notion_color.length),
      closest_color r g b = some ((notion_color.get ⟨i, hi⟩).name)
        ∧ (∀ (j : Nat) (hj : j < notion_color.length),
            colorDistSq r g b (notion_color.get ⟨i, hi⟩)
              ≤ colorDistSq r g b (notion_color.get ⟨j, hj⟩))
        ∧ (∀ (j : Nat) (hj : j < notion_color.length), j < i →
            colorDistSq r g b (notion_color.get ⟨i, hi⟩)
              < colorDistSq r g b (notion_color.get ⟨j, hj⟩)) := by
    refine ⟨i, hiN, ?_, ?_, ?_⟩
    · rw [closest_color_eq_firstMin, heq]
      simp [List.get_eq_getElem, List.getElem_map]
    · intro j hj
      have h1 := hmin j (by omega)
      simp only [List.get_eq_getElem, List.getElem_map] at h1
      simpa [List.get_eq_getElem] using h1
    · intro j hj hjlt
      have h1 := hstrict j (by omega) hjlt
      simp only [List.get_eq_getElem, List.getElem_map] at h1
      simpa [List.get_eq_getElem] using h1
  refine ⟨hmain, ?_, by decide, by decide, by decide, by decide⟩
  intro n hn
  obtain ⟨i2, hi2, heq2, -, -⟩ := hmain
  rw [hn] at heq2
  have hn2 : n = (notion_color.get ⟨i2, hi2⟩).name := Option.some.inj heq2
  subst hn2
  exact List.mem_map_of_mem _ (List.get_mem notion_color i2 hi2)

/-- Witness for C8: the black triple resolves to a palette name. -/
theorem c8_closest_color_witness :
    closest_color 0 0 0 = some "default" ∧ "default" ∈ paletteNames :=
  ⟨(c8_closest_color_total_first_min 0 0 0).2.2.1,
   (c8_closest_color_total_first_min 0 0 0).2.1 "default"
     (c8_closest_color_total_first_min 0 0 0).2.2.1⟩

theorem splitChar_ne_nil (sep : Char) (l : List Char) : splitChar sep l ≠ [] := by
  induction l with
  | nil => simp [splitChar]
  | cons c cs ih =>
    simp only [splitChar]
    split_ifs
    · simp
    · rcases h : splitChar sep cs with _ | ⟨h1, t⟩
      · exact absurd h ih
      · simp

theorem splitChar_len_gt_one (sep : Char) (l : List Char) :
    (splitChar sep l).length > 1 ↔ l.contains sep = true := by
  induction l with
  | nil => simp [splitChar]
  | cons c cs ih =>
    by_cases hcs : c == sep
    · have hceq : c = sep := beq_iff_eq.mp hcs
      subst hceq
      simp only [splitChar]
      rw [if_pos (beq_self_eq_true c)]
      constructor
      · intro _
        simp [List.contains_cons]
      · intro _
        have h1 : 0 < (splitChar c cs).length :=
          List.length_pos.mpr (splitChar_ne_nil c cs)
        simp only [List.length_cons]
        omega
    · have hsym : (sep == c) = false := by
        apply beq_eq_false_iff_ne.mpr
        intro h
        exact hcs (beq_iff_eq.mpr h.symm)
      rcases h : splitChar sep cs with _ | ⟨h1, t⟩
      · exact absurd h (splitChar_ne_nil sep cs)
      · simp only [splitChar, hcs, Bool.false_eq_true, if_false, h]
        rw [h] at ih
        simp only [List.length_cons] at ih ⊢
        rw [List.contains_cons]
        simp [hsym, ih]

theorem splitChar_headI (sep : Char) (l : List Char) :
    (splitChar sep l).headI = l.takeWhile (fun c => c != sep) := by
  induction l with
  | nil => simp [splitChar]
  | cons c cs ih =>
    by_cases hcs : c == sep
    · have hbne : (c != sep) = false := by simp [bne, hcs]
      simp only [splitChar, hcs, if_pos, List.headI, List.takeWhile_cons, hbne,
        Bool.false_eq_true, if_false]
    · have hbne : (c != sep) = true := by simp [bne, hcs]
      rcases h : splitChar sep cs with _ | ⟨h1, t⟩
      · exact absurd h (splitChar_ne_nil sep cs)
      · rw [h] at ih
        simp only [List.headI] at ih
        simp only [splitChar, hcs, Bool.false_eq_true, if_false, h, List.headI,
          List.takeWhile_cons, hbne, if_pos, ih]

theorem splitChar_tail_headI (sep : Char) (l : List Char) (hl : l.contains sep = true) :
    (splitChar sep l).tail.headI
      = ((l.dropWhile (fun c => c != sep)).tail).takeWhile (fun c => c != sep) := by
  induction l with
  | nil => simp at hl
  | cons c cs ih =>
    by_cases hcs : c == sep
    · have hceq : c = sep := beq_iff_eq.mp hcs
      subst hceq
      have hbne : (c != c) = false := by simp
      simp only [splitChar]
      rw [if_pos (beq_self_eq_true c)]
      simp only [List.tail_cons, List.dropWhile_cons, hbne, Bool.false_eq_true,
        if_false, List.tail_cons]
      rw [splitChar_headI]
    · have hbne : (c != sep) = true := by simp [bne, hcs]
      have hcs2 : cs.contains sep = true := by
        rw [List.contains_cons] at hl
        rcases Bool.or_eq_true _ _ |>.mp hl with h | h
        · exact absurd (beq_iff_eq.mp h).symm (by simpa using hcs)
        · exact h
      rcases h : splitChar sep cs with _ | ⟨h1, t⟩
      · exact absurd h (splitChar_ne_nil sep cs)
      · have ih2 := ih hcs2
        rw [h] at ih2
        simp only [List.tail_cons] at ih2
        simp only [splitChar, hcs, Bool.false_eq_true, if_false, h, List.tail_cons,
          List.dropWhile_cons, hbne, if_pos]
        exact ih2

/-- C5 counterexample: for the style string `"a:b:c"` the source parser
keeps only the text between the first and the second colon as the value
(`"b"`), not everything after the first colon (`"b:c"`) as the claim
states. -/
theorem c5_style_value_counterexample :
    get_tag_style (HNode.elem "div" [("style", "a:b:c")] []) = [("a", "b")]
    ∧ styleClaimParse "a:b:c" = [("a", "b:c")]
    ∧ get_tag_style (HNode.elem "div" [("style", "a:b:c")] [])
        ≠ styleClaimParse (getAttrD (HNode.elem "div" [("style", "a:b:c")] []) "style" "") :=
  ⟨by decide, by decide, by decide⟩

/-- C5 amended: `get_tag_style` splits the style attribute on `;`, splits
each rule on `:`, takes the first segment (stripped) as the property name
and the SECOND segment — the text after the first colon up to the next
colon — stripped and lower-cased as the value, and ignores rules with no
colon. -/
theorem c5_style_parse_amended (tag : HNode) :
    get_tag_style tag =
      match tag with
      | .text _ => []
      | .elem _ _ _ => styleAmendedParse (getAttrD tag "style" "") := by
  cases tag with
  | text s => rfl
  | elem n a cs =>
    simp only [get_tag_style, styleAmendedParse]
    congr 1
    funext d rule
    by_cases hc : rule.contains ':'
    · have hne : rule.isEmpty = false := by
        rcases rule with _ | ⟨x, xs⟩
        · simp at hc
        · rfl
      have hlen : (splitChar ':' rule).length > 1 :=
        (splitChar_len_gt_one ':' rule).mpr (by simpa using hc)
      rw [if_pos (by simp [hne, hlen]), if_pos hc]
      rw [splitChar_headI, splitChar_tail_headI ':' rule (by simpa using hc)]
    · have hlen : ¬ (splitChar ':' rule).length > 1 := by
        rw [splitChar_len_gt_one ':' rule]
        simpa using hc
      rw [if_neg (by simp [hlen]), if_neg hc]

/-- C2 counterexample: on `<ul><li>A<ul><li>B</li></ul></li></ul>` the
converter produces one top-level bulleted_list_item whose children hold
the item for "B", but its rich_text is EMPTY — the text "A" is dropped
(the nested-list branch of `_convert_one_list_item` never collects the
own inline content of the item), so the claim that the rich_text of the top block
carries "A" is false. -/
theorem c2_nested_list_counterexample :
    convert_bulleted_list_item (fun _ => true)
        (HNode.elem "ul" [] [HNode.elem "li" [] [HNode.text "A",
          HNode.elem "ul" [] [HNode.elem "li" [] [HNode.text "B"]]]])
      = [LNode.item "bulleted_list_item" []
          (some [LNode.item "bulleted_list_item" [RichObj.textObj "B" none] none])]
    ∧ (match convert_bulleted_list_item (fun _ => true)
        (HNode.elem "ul" [] [HNode.elem "li" [] [HNode.text "A",
          HNode.elem "ul" [] [HNode.elem "li" [] [HNode.text "B"]]]]) with
       | [LNode.item _ rt _] => rt
       | _ => [RichObj.textObj "missing" none]) = ([] : List RichObj) :=
  ⟨rfl, rfl⟩

/-- C2 amended: on `<ul><li>A<ul><li>B</li></ul></li></ul>` the converter
produces exactly one top-level bulleted_list_item block whose rich_text
is empty (the item text "A" is not captured when a nested list is
present) and whose children array contains exactly one bulleted_list_item
block for "B"; no top-level block is produced for "B". -/
theorem c2_nested_list_amended (valid : String → Bool) :
    convert_bulleted_list_item valid
        (HNode.elem "ul" [] [HNode.elem "li" [] [HNode.text "A",
          HNode.elem "ul" [] [HNode.elem "li" [] [HNode.text "B"]]]])
      = [LNode.item "bulleted_list_item" []
          (some [LNode.item "bulleted_list_item" [RichObj.textObj "B" none] none])] :=
  rfl

/-- C3: on a heading that carries the toggle marker and has content,
`convert_heading` does not return a toggle block: the toggle branch pops
the heading key and the following unconditional write
`json_obj[heading_level]["rich_text"] = cleaned_elements` raises KeyError
(the spec describes the reclassification as the intent, so this is a code
bug).  A heading with no content does return `None` as claimed. -/
theorem c3_toggle_heading_keyerror :
    convert_heading (fun _ => true)
        (HNode.elem "h1" [("data-toggle", "true")] [HNode.text "x"])
      = .error "KeyError"
    ∧ convert_heading (fun _ => true) (HNode.elem "h1" [] []) = .ok none :=
  ⟨rfl, rfl⟩

/-- C4: the database-mode table projector raises IndexError on a
select-typed cell whose option elements carry no `selected` attribute
(`selected_options[0]` is guarded only by `select_options`), and the
exception escapes `convert_table`; with no `tr` at all it raises
AttributeError (`None.find_all`).  A select cell with several selected
options does complete and uses the first one. -/
theorem c4_select_cell_indexerror :
    convert_to_notion_database_schema
        (HNode.elem "table" [] [
          HNode.elem "tr" [] [HNode.elem "th" [("data-column-type", "select")]
            [HNode.text "S"]],
          HNode.elem "tr" [] [HNode.elem "td" [] [
            HNode.elem "option" [] [HNode.text "Todo"],
            HNode.elem "option" [] [HNode.text "Done"]]]])
      = .error "IndexError"
    ∧ convert_table (fun _ => true) true
        (HNode.elem "table" [] [
          HNode.elem "tr" [] [HNode.elem "th" [("data-column-type", "select")]
            [HNode.text "S"]],
          HNode.elem "tr" [] [HNode.elem "td" [] [
            HNode.elem "option" [] [HNode.text "Todo"],
            HNode.elem "option" [] [HNode.text "Done"]]]])
      = .error "IndexError"
    ∧ convert_to_notion_database_schema (HNode.elem "table" [] [])
      = .error "AttributeError"
    ∧ convert_to_notion_database_schema
        (HNode.elem "table" [] [
          HNode.elem "tr" [] [HNode.elem "th" [("data-column-type", "select")]
            [HNode.text "S"]],
          HNode.elem "tr" [] [HNode.elem "td" [] [
            HNode.elem "option" [("selected", "selected")] [HNode.text "Todo"],
            HNode.elem "option" [("selected", "selected")] [HNode.text "Done"]]]])
      = .ok { database_id := none,
              headers := [("S", HeaderData.selectH "select"
                [("Todo", "pink"), ("Done", "purple")])],
              rows := [[("S", PropVal.selectV "Todo")]] } :=
  ⟨rfl, rfl, rfl, rfl⟩

/-- C9: the database-mode select scenario produces the claimed header
entry (options colored `pink`, `purple` by round-robin over the 11-name
palette) and the row value of the selected option; and header entries are
first-write-wins: `convert_header` leaves an existing entry unchanged. -/
theorem c9_select_schema_projection :
    convert_to_notion_database_schema
        (HNode.elem "table" [] [
          HNode.elem "tr" [] [HNode.elem "th" [("data-column-type", "select")]
            [HNode.text "Status"]],
          HNode.elem "tr" [] [HNode.elem "td" [] [
            HNode.elem "option" [] [HNode.text "Todo"],
            HNode.elem "option" [("selected", "selected")] [HNode.text "Done"]]]])
      = .ok { database_id := none,
              headers := [("Status", HeaderData.selectH "select"
                [("Todo", "pink"), ("Done", "purple")])],
              rows := [[("Status", PropVal.selectV "Done")]] }
    ∧ NOTION_COLORS.length = 11
    ∧ ∀ (headers : List (String × HeaderData)) (col_name col_type : String)
        (value : List String),
        (headers.find? (fun p => p.1 == col_name)).isSome →
        convert_header headers col_name col_type value = headers := by
  refine ⟨rfl, rfl, ?_⟩
  intro headers col_name col_type value h
  simp only [convert_header]
  rw [if_pos h]

/-- Witness for C9: a later row with an already-seen column name does not
overwrite the existing header entry. -/
theorem c9_select_schema_witness :
    convert_header [("A", HeaderData.simpleH "rich_text")] "A" "date" []
      = [("A", HeaderData.simpleH "rich_text")] :=
  c9_select_schema_projection.2.2 [("A", HeaderData.simpleH "rich_text")] "A" "date" []
    (by decide)

theorem tableLoop_spec (valid : String → Bool) (trs : List HNode) :
    ∀ (w : Nat) (h : Bool) (rows : List (List (List CellItem))),
      (tableLoop valid trs w h rows).2.1
          = (h || trs.any (fun tr => (findAllDesc "td" tr).isEmpty))
        ∧ (tableLoop valid trs w h rows).2.2
          = rows ++ trs.map (fun tr =>
              if (findAllDesc "td" tr).isEmpty then
                (findAllDesc "th" tr).map (thCellConv valid)
              else (findAllDesc "td" tr).map (tdCellConv valid)) := by
  induction trs with
  | nil =>
    intro w h rows
    simp [tableLoop]
  | cons tr rest ih =>
    intro w h rows
    simp only [tableLoop]
    by_cases htd : (findAllDesc "td" tr).isEmpty
    · rw [if_pos htd]
      constructor
      · rw [(ih _ _ _).1]
        simp [htd]
      · rw [(ih _ _ _).2]
        simp [htd]
    · rw [if_neg htd]
      constructor
      · rw [(ih _ _ _).1]
        simp only [List.any_cons]
        have htd2 : (findAllDesc "td" tr).isEmpty = false := by
          simpa using htd
        simp [htd2]
      · rw [(ih _ _ _).2]
        have htd2 : (findAllDesc "td" tr).isEmpty = false := by
          simpa using htd
        simp [htd2]

/-- C10: on the generic table path, the `has_column_header` flag is set
exactly when some row has no `td` cell, and each row is read from its
`td` cells alone whenever it has at least one (any `th` cells in such a
row are ignored and the row does not mark the header flag); only a row
with zero `td` cells is read through its `th` cells. -/
theorem c10_generic_table_rows (valid : String → Bool) (soup : HNode)
    (hgrid : getAttrD soup "data-coda-grid-configuration-set" "" ≠ "SimpleTable")
    (htr : findAllDesc "tr" soup ≠ []) :
    ∃ t : TableObj, convert_table valid false soup = .ok (.tableBlock t)
      ∧ t.has_column_header
          = (findAllDesc "tr" soup).any (fun tr => (findAllDesc "td" tr).isEmpty)
      ∧ t.children = (findAllDesc "tr" soup).map (fun tr =>
          if (findAllDesc "td" tr).isEmpty then
            (findAllDesc "th" tr).map (thCellConv valid)
          else (findAllDesc "td" tr).map (tdCellConv valid)) := by
  have hg : (getAttrD soup "data-coda-grid-configuration-set" "" == "SimpleTable")
      = false := beq_eq_false_iff_ne.mpr hgrid
  simp only [convert_table, hg, Bool.and_false, Bool.or_false, Bool.false_eq_true,
    if_false]
  rcases htrs : findAllDesc "tr" soup with _ | ⟨tr0, trRest⟩
  · exact absurd htrs htr
  · rcases he : tableLoop valid (tr0 :: trRest) ((findAllDesc "td" tr0).length)
        false [] with ⟨w2, h2, rows2⟩
    have hspec := tableLoop_spec valid (tr0 :: trRest)
      ((findAllDesc "td" tr0).length) false []
    rw [he] at hspec
    simp only [he]
    refine ⟨_, rfl, ?_, ?_⟩
    · simpa using hspec.1
    · simpa using hspec.2

/-- Witness for C10: a table whose second row holds both a `td` and a
`th`; only the `td` cell is emitted for it, and only the first (all-`th`)
row drives the header flag. -/
theorem c10_generic_table_rows_witness :
    ∃ t : TableObj,
      convert_table (fun _ => true) false
          (HNode.elem "table" [] [
            HNode.elem "tr" [] [HNode.elem "th" [] [HNode.text "H"]],
            HNode.elem "tr" [] [HNode.elem "td" [] [HNode.text "x"],
              HNode.elem "th" [] [HNode.text "y"]]])
        = .ok (.tableBlock t)
      ∧ t.has_column_header
          = (findAllDesc "tr" (HNode.elem "table" [] [
              HNode.elem "tr" [] [HNode.elem "th" [] [HNode.text "H"]],
              HNode.elem "tr" [] [HNode.elem "td" [] [HNode.text "x"],
                HNode.elem "th" [] [HNode.text "y"]]])).any
            (fun tr => (findAllDesc "td" tr).isEmpty)
      ∧ t.children = (findAllDesc "tr" (HNode.elem "table" [] [
            HNode.elem "tr" [] [HNode.elem "th" [] [HNode.text "H"]],
            HNode.elem "tr" [] [HNode.elem "td" [] [HNode.text "x"],
              HNode.elem "th" [] [HNode.text "y"]]])).map (fun tr =>
          if (findAllDesc "td" tr).isEmpty then
            (findAllDesc "th" tr).map (thCellConv (fun _ => true))
          else (findAllDesc "td" tr).map (tdCellConv (fun _ => true))) :=
  c10_generic_table_rows (fun _ => true) _
    (by rw [show getAttrD (HNode.elem "table" [] [
        HNode.elem "tr" [] [HNode.elem "th" [] [HNode.text "H"]],
        HNode.elem "tr" [] [HNode.elem "td" [] [HNode.text "x"],
          HNode.elem "th" [] [HNode.text "y"]]])
        "data-coda-grid-configuration-set" "" = "" from rfl]; decide)
    (by rw [show findAllDesc "tr" (HNode.elem "table" [] [
        HNode.elem "tr" [] [HNode.elem "th" [] [HNode.text "H"]],
        HNode.elem "tr" [] [HNode.elem "td" [] [HNode.text "x"],
          HNode.elem "th" [] [HNode.text "y"]]])
        = [HNode.elem "tr" [] [HNode.elem "th" [] [HNode.text "H"]],
           HNode.elem "tr" [] [HNode.elem "td" [] [HNode.text "x"],
             HNode.elem "th" [] [HNode.text "y"]]] from rfl]; simp)
